import Mathlib

/-!
Verification of `tianshou/policy/modelfree/c51.py` (class `C51Policy`).

A shallow embedding of the C51 categorical DQN policy over exact rationals.
Tensors of shape `[bsz, nact, natoms]` become functions
`Fin bsz → Fin nact → Fin natoms → ℚ`; the torch model is an arbitrary
function from observations to logits; `np.random` draws and the optimizer
step are passed in as explicit parameters.  Methods that mutate `self` are
state transformers `C51State → … → C51State × …`.
-/

namespace C51

/-- Embeds `torch.clamp(x, lo, hi)` as `min (max x lo) hi`. -/
def clamp (x lo hi : ℚ) : ℚ := min (max x lo) hi

/-- Embeds `torch.linspace(a, b, n)`: the `j`-th of `n` evenly spaced points from
`a` to `b`, i.e. `a + j * (b - a) / (n - 1)`. -/
def linspace (a b : ℚ) (n : ℕ) (j : Fin n) : ℚ :=
  a + (j : ℚ) * ((b - a) / ((n : ℚ) - 1))

/-- The atom spacing `self.delta_z = (v_max - v_min) / (num_atoms - 1)`. -/
def deltaZ (vMin vMax : ℚ) (n : ℕ) : ℚ := (vMax - vMin) / ((n : ℚ) - 1)

/-- First index attaining the maximum of `f`, as `np.argmax` /
`torch.max(dim)[1]` return it for a nonempty axis. -/
def argmaxFin {n : ℕ} {α : Type} [LinearOrder α] (f : Fin (n + 1) → α) :
    Fin (n + 1) :=
  (Finset.univ.filter fun i => ∀ j, f j ≤ f i).min'
    (by
      obtain ⟨i, _, hi⟩ :=
        Finset.exists_max_image Finset.univ f ⟨0, Finset.mem_univ 0⟩
      exact ⟨i, Finset.mem_filter.mpr ⟨Finset.mem_univ i,
        fun j => hi j (Finset.mem_univ j)⟩⟩)

/-- Constructor arguments of `C51Policy.__init__` that matter to its own
body (the remaining ones are forwarded untouched to `DQNPolicy.__init__`). -/
structure C51Params where
  discountFactor : ℚ
  numAtoms : ℕ
  vMin : ℚ
  vMax : ℚ
  estimationStep : ℕ
  targetUpdateFreq : ℕ
  rewardNormalization : Bool

/-- The mutable state of a `C51Policy` object: the fields set by
`C51Policy.__init__` together with the `DQNPolicy` base fields that
`c51.py` reads or writes (`self.model`, `self.model_old`, `self.eps`,
`self.updating`, `self._target`, `self._freq`, `self._cnt`).
A model maps an observation to logits of shape `[nact, natoms]`,
with `nact = na + 1` actions. -/
structure C51State (na natoms : ℕ) (Obs : Type) where
  model : Obs → Fin (na + 1) → Fin natoms → ℚ
  modelOld : Obs → Fin (na + 1) → Fin natoms → ℚ
  eps : ℚ
  updating : Bool
  useTarget : Bool
  freq : ℕ
  cnt : ℕ
  vMin : ℚ
  vMax : ℚ
  support : Fin natoms → ℚ
  deltaZ : ℚ

/-- Modelled from the spec: `DQNPolicy.__init__` is not part of this
repository slice; per the spec, "error conditions are limited to static
configuration validation: `num_atoms` must exceed 1; `v_min` must be
strictly less than `v_max`", so the base-class initialisation never fails
and merely installs the base fields (`self.model`, `self.model_old` a copy
of the model, `self.eps = 0`, `self.updating = False`,
`self._target = target_update_freq > 0`, `self._freq`, `self._cnt = 0`). -/
def dqnBaseInit {na natoms : ℕ} {Obs : Type}
    (model : Obs → Fin (na + 1) → Fin natoms → ℚ) (p : C51Params) :
    C51State na natoms Obs where
  model := model
  modelOld := model
  eps := 0
  updating := false
  useTarget := 0 < p.targetUpdateFreq
  freq := p.targetUpdateFreq
  cnt := 0
  vMin := 0
  vMax := 0
  support := fun _ => 0
  deltaZ := 0

/-- Embeds `C51Policy.__init__`: after the base initialisation it asserts
`num_atoms > 1` and `v_min < v_max` (an `AssertionError` becomes
`Except.error` with the assertion message), then sets `self._v_min`,
`self._v_max`, `self.support = torch.linspace(v_min, v_max, num_atoms)`
and `self.delta_z = (v_max - v_min) / (num_atoms - 1)`. -/
def mkC51 {na : ℕ} {Obs : Type} (p : C51Params)
    (model : Obs → Fin (na + 1) → Fin p.numAtoms → ℚ) :
    Except String (C51State na p.numAtoms Obs) :=
  let base := dqnBaseInit model p
  if ¬ 1 < p.numAtoms then .error "num_atoms should be greater than 1"
  else if ¬ p.vMin < p.vMax then .error "v_max should be larger than v_min"
  else .ok { base with
    vMin := p.vMin
    vMax := p.vMax
    support := linspace p.vMin p.vMax p.numAtoms
    deltaZ := deltaZ p.vMin p.vMax p.numAtoms }

/-- Result of `C51Policy.forward`: the `Batch(logits=dist, act=act, state=h)`
it returns (the hidden state `h` is whatever the model emitted and carries
no information in this embedding). -/
structure ForwardOut (bsz na natoms : ℕ) where
  logits : Fin bsz → Fin (na + 1) → Fin natoms → ℚ
  act : Fin bsz → Fin (na + 1)

/-- Embeds `np.isclose(eps, 0.0)` with numpy defaults `rtol=1e-5, atol=1e-8`:
`|eps - 0| ≤ atol + rtol * |0|`. -/
def epsCloseToZero (eps : ℚ) : Prop := |eps| ≤ 1 / 100000000

instance (eps : ℚ) : Decidable (epsCloseToZero eps) := by
  unfold epsCloseToZero; infer_instance

/-- The guard of the exploration loop in `forward`:
`not self.updating and not np.isclose(self.eps, 0.0)`. -/
def exploring {na natoms : ℕ} {Obs : Type} (s : C51State na natoms Obs) :
    Prop := s.updating = false ∧ ¬ epsCloseToZero s.eps

instance {na natoms : ℕ} {Obs : Type} (s : C51State na natoms Obs) :
    Decidable (exploring s) := by
  unfold exploring; infer_instance

/-- Argmax over one sample's q-values with invalid actions removed:
`q_[~mask] = -np.inf; q_.argmax()`.  `-np.inf` is `⊥` of `WithBot ℚ`;
with no mask present the plain argmax is taken. -/
def selectAct {na : ℕ} (mask? : Option (Fin (na + 1) → Bool))
    (v : Fin (na + 1) → ℚ) : Fin (na + 1) :=
  match mask? with
  | none => argmaxFin v
  | some mask => argmaxFin fun a => if mask a then (v a : WithBot ℚ) else ⊥

/-- Embeds `C51Policy.forward`.  `obs` is the (inner) observation array of the
requested input, `mask?` its optional action mask; `coins b` is the draw
`np.random.rand() < self.eps` for sample `b` and `randq b` the random
q-row `np.random.rand(*q[i].shape)` used when that sample explores;
`useOld` selects `model="model_old"`.  Computes
`q = (dist * support).sum(2)`, takes the (masked) argmax per sample, then
overwrites explored samples with the (masked) argmax of the random row. -/
def forward {bsz na natoms : ℕ} {Obs : Type} (s : C51State na natoms Obs)
    (obs : Fin bsz → Obs) (mask? : Option (Fin bsz → Fin (na + 1) → Bool))
    (coins : Fin bsz → Bool) (randq : Fin bsz → Fin (na + 1) → ℚ)
    (useOld : Bool) : ForwardOut bsz na natoms :=
  let m := if useOld then s.modelOld else s.model
  let dist : Fin bsz → Fin (na + 1) → Fin natoms → ℚ := fun b => m (obs b)
  let q : Fin bsz → Fin (na + 1) → ℚ :=
    fun b a => ∑ j, dist b a j * s.support j
  let greedy : Fin bsz → Fin (na + 1) :=
    fun b => selectAct ((mask?.map (· b))) (q b)
  let act : Fin bsz → Fin (na + 1) := fun b =>
    if exploring s ∧ coins b = true then
      selectAct ((mask?.map (· b))) (randq b)
    else greedy b
  { logits := dist, act := act }

/-- The sampled batch as `_target_dist` and `learn` consume it: inner
observation arrays with their optional action masks for `obs` and
`obs_next`, the taken actions `act`, the n-step returns `batch.returns`
of shape `[bsz, num_atoms]` (produced upstream from `_target_q`), and the
optional prioritized-replay key `"weight"`. -/
structure LearnBatch (bsz na natoms : ℕ) (Obs : Type) where
  obs : Fin bsz → Obs
  obsMask? : Option (Fin bsz → Fin (na + 1) → Bool)
  obsNext : Fin bsz → Obs
  obsNextMask? : Option (Fin bsz → Fin (na + 1) → Bool)
  act : Fin bsz → Fin (na + 1)
  returns : Fin bsz → Fin natoms → ℚ
  weight : Option (Fin bsz → ℚ)

/-- Embeds `C51Policy._target_dist`.  With a target network the action comes from
`self(batch, input="obs_next")` and the distribution from
`self(batch, model="model_old", input="obs_next")`; otherwise both come
from the single call.  Then
`next_dist = next_dist[np.arange(len(a)), a, :]`,
`target_support = batch.returns.clamp(v_min, v_max)`, and the projection
`((1 - |target_support[b,i] - support[j]| / delta_z).clamp(0,1)
  * next_dist[b,i]).sum over i` — the broadcast
`target_support.unsqueeze(1) - support.view(1,-1,1)` followed by
`.sum(-1)` written with explicit indices. -/
def targetDist {bsz na natoms : ℕ} {Obs : Type} (s : C51State na natoms Obs)
    (b : LearnBatch bsz na natoms Obs) (coins : Fin bsz → Bool)
    (randq : Fin bsz → Fin (na + 1) → ℚ) :
    Fin bsz → Fin natoms → ℚ :=
  let a := (forward s b.obsNext b.obsNextMask? coins randq false).act
  let nextDistFull :=
    if s.useTarget then
      (forward s b.obsNext b.obsNextMask? coins randq true).logits
    else
      (forward s b.obsNext b.obsNextMask? coins randq false).logits
  let nextDist : Fin bsz → Fin natoms → ℚ := fun bi => nextDistFull bi (a bi)
  let targetSupport : Fin bsz → Fin natoms → ℚ :=
    fun bi i => clamp (b.returns bi i) s.vMin s.vMax
  fun bi j =>
    ∑ i, clamp (1 - |targetSupport bi i - s.support j| / s.deltaZ) 0 1
      * nextDist bi i

/-- Embeds `C51Policy._target_dist` as a transformer of the policy object: the
method body contains no assignment to `self`, so the state component is
returned as received and the value component is `targetDist`; the output
tensor's shape `[bsz, num_atoms]` is its type. -/
def targetDistS {bsz na natoms : ℕ} {Obs : Type} (s : C51State na natoms Obs)
    (b : LearnBatch bsz na natoms Obs) (coins : Fin bsz → Bool)
    (randq : Fin bsz → Fin (na + 1) → ℚ) :
    C51State na natoms Obs × (Fin bsz → Fin natoms → ℚ) :=
  (s, targetDist s b coins randq)

/-- The per-sample values
`cross_entropy = -(target_dist * torch.log(curr_dist + 1e-8)).sum(1)`
computed inside `learn`, where `curr_dist = self(batch).logits` gathered
at the taken actions.  `log` stands for `torch.log`. -/
def crossEntropyOf {bsz na natoms : ℕ} {Obs : Type} (log : ℚ → ℚ)
    (s : C51State na natoms Obs) (b : LearnBatch bsz na natoms Obs)
    (coins : Fin bsz → Bool) (randq : Fin bsz → Fin (na + 1) → ℚ) :
    Fin bsz → ℚ :=
  let td := targetDist s b coins randq
  let currAll := (forward s b.obs b.obsMask? coins randq false).logits
  let curr : Fin bsz → Fin natoms → ℚ := fun bi => currAll bi (b.act bi)
  fun bi => -(∑ j, td bi j * log (curr bi j + 1 / 100000000))

/-- The target-network synchronisation at the head of `learn`:
when `self._target and self._cnt % self._freq == 0`, `sync_weight` of the
base class copies the online model into `model_old`. -/
def syncIfDue {na natoms : ℕ} {Obs : Type} (s : C51State na natoms Obs) :
    C51State na natoms Obs :=
  if s.useTarget = true ∧ s.cnt % s.freq = 0 then
    { s with modelOld := s.model } else s

/-- Embeds `C51Policy.learn`.  `optStep` stands for the external
`self.optim.step()` update of the model parameters after
`loss.backward()`; `log` for `torch.log`.  Steps, in code order: sync the
target copy when `self._target and self._cnt % self._freq == 0`
(`sync_weight` of the base class copies the online model into
`model_old`); compute the target distribution; pop `"weight"` (default
`1.0`); gather the current distributions at the taken actions; form the
per-sample cross-entropies and `loss = (cross_entropy * weight).mean()`;
store `batch.weight = cross_entropy.detach()`; step the optimizer;
increment `self._cnt`; return `{"loss": loss.item()}`. -/
def learn {bsz na natoms : ℕ} {Obs : Type}
    (optStep : (Obs → Fin (na + 1) → Fin natoms → ℚ) →
      Obs → Fin (na + 1) → Fin natoms → ℚ)
    (log : ℚ → ℚ) (s : C51State na natoms Obs)
    (b : LearnBatch bsz na natoms Obs) (coins : Fin bsz → Bool)
    (randq : Fin bsz → Fin (na + 1) → ℚ) :
    C51State na natoms Obs × LearnBatch bsz na natoms Obs × ℚ :=
  let s1 := syncIfDue s
  let ce := crossEntropyOf log s1 b coins randq
  let w : Fin bsz → ℚ := fun bi =>
    match b.weight with
    | some f => f bi
    | none => 1
  let loss := (∑ bi, ce bi * w bi) / (bsz : ℚ)
  let b1 := { b with weight := some ce }
  let s2 := { s1 with model := optStep s1.model, cnt := s1.cnt + 1 }
  (s2, b1, loss)

/-- The next-state distribution rows used by `_target_dist`: the logits of
the model it reads (`model_old` when a target network is configured, the
online model otherwise) gathered at the action selected by `forward` on
`obs_next`. -/
def nextDistSel {bsz na natoms : ℕ} {Obs : Type} (s : C51State na natoms Obs)
    (b : LearnBatch bsz na natoms Obs) (coins : Fin bsz → Bool)
    (randq : Fin bsz → Fin (na + 1) → ℚ) :
    Fin bsz → Fin natoms → ℚ := fun bi =>
  (if s.useTarget = true then
      (forward s b.obsNext b.obsNextMask? coins randq true).logits
    else (forward s b.obsNext b.obsNextMask? coins randq false).logits)
    bi ((forward s b.obsNext b.obsNextMask? coins randq false).act bi)

/-- A concrete valid configuration: `num_atoms = 3`, `v_min = -1`,
`v_max = 1`. -/
def exampleParams : C51Params where
  discountFactor := 99 / 100
  numAtoms := 3
  vMin := -1
  vMax := 1
  estimationStep := 1
  targetUpdateFreq := 0
  rewardNormalization := false

/-- A concrete two-action, two-atom policy over trivial observations, as
`__init__` builds it from `v_min = -1`, `v_max = 1`, `num_atoms = 2`:
action 0's distribution concentrates on the low atom, action 1's on the
high atom, and the policy is in its `updating` phase. -/
def exampleState : C51State 1 2 Unit where
  model := fun _ a j =>
    if a = 0 then (if j = 0 then 1 else 0) else (if j = 0 then 0 else 1)
  modelOld := fun _ a j =>
    if a = 0 then (if j = 0 then 1 else 0) else (if j = 0 then 0 else 1)
  eps := 0
  updating := true
  useTarget := false
  freq := 0
  cnt := 0
  vMin := -1
  vMax := 1
  support := linspace (-1) 1 2
  deltaZ := deltaZ (-1) 1 2

/-- A concrete single-action, two-atom policy over trivial observations
whose model always outputs the uniform distribution `(1/2, 1/2)`. -/
def exampleLearnState : C51State 0 2 Unit where
  model := fun _ _ _ => 1 / 2
  modelOld := fun _ _ _ => 1 / 2
  eps := 0
  updating := true
  useTarget := false
  freq := 0
  cnt := 0
  vMin := -1
  vMax := 1
  support := linspace (-1) 1 2
  deltaZ := deltaZ (-1) 1 2

/-- A concrete one-sample batch for `exampleLearnState` carrying a
prioritized-replay `"weight"` of 2 and zero returns. -/
def exampleLearnBatch : LearnBatch 1 0 2 Unit where
  obs := fun _ => ()
  obsMask? := none
  obsNext := fun _ => ()
  obsNextMask? := none
  act := fun _ => 0
  returns := fun _ _ => 0
  weight := some fun _ => 2

theorem targetDist_eq_sum_nextDistSel {bsz na natoms : ℕ} {Obs : Type}
    (s : C51State na natoms Obs) (b : LearnBatch bsz na natoms Obs)
    (coins : Fin bsz → Bool) (randq : Fin bsz → Fin (na + 1) → ℚ)
    (bi : Fin bsz) (j : Fin natoms) :
    targetDist s b coins randq bi j =
      ∑ i, clamp (1 - |clamp (b.returns bi i) s.vMin s.vMax - s.support j|
          / s.deltaZ) 0 1 * nextDistSel s b coins randq bi i := by
  by_cases h : s.useTarget = true <;> simp [targetDist, nextDistSel, h]

end C51

namespace C51

theorem argmaxFin_le {n : ℕ} {α : Type} [LinearOrder α]
    (f : Fin (n + 1) → α) (j : Fin (n + 1)) : f j ≤ f (argmaxFin f) := by
  have hmem := Finset.min'_mem
    (Finset.univ.filter fun i => ∀ j, f j ≤ f i)
    (by
      obtain ⟨i, _, hi⟩ :=
        Finset.exists_max_image Finset.univ f ⟨0, Finset.mem_univ 0⟩
      exact ⟨i, Finset.mem_filter.mpr ⟨Finset.mem_univ i,
        fun j => hi j (Finset.mem_univ j)⟩⟩)
  exact (Finset.mem_filter.mp hmem).2 j

/-- C1: for every batch, `_target_dist` returns the C51 categorical
projection of the Bellman-shifted target support onto the fixed atom grid:
with `T[b,i] = clamp(batch.returns[b,i], v_min, v_max)` and
`z[j] = support[j]`, the returned tensor satisfies
`target_dist[b,j] = Σ_i clamp(1 - |T[b,i] - z[j]| / delta_z, 0, 1) *
next_dist[b,i]`, where `next_dist[b]` is the next-state distribution of
the action selected by `forward` on `obs_next`. -/
theorem targetDist_is_categorical_projection {bsz na natoms : ℕ}
    {Obs : Type} (s : C51State na natoms Obs)
    (b : LearnBatch bsz na natoms Obs) (coins : Fin bsz → Bool)
    (randq : Fin bsz → Fin (na + 1) → ℚ) (bi : Fin bsz) (j : Fin natoms) :
    targetDist s b coins randq bi j =
      ∑ i, clamp (1 - |clamp (b.returns bi i) s.vMin s.vMax - s.support j|
          / s.deltaZ) 0 1 * nextDistSel s b coins randq bi i :=
  targetDist_eq_sum_nextDistSel s b coins randq bi j

/-- C4: constructing a `C51Policy` fails exactly when a static
configuration constraint is violated: it raises iff `num_atoms ≤ 1` or
`v_min ≥ v_max`; for every configuration with `num_atoms > 1` and
`v_min < v_max` construction succeeds, and no other error condition
exists at this interface. -/
theorem mkC51_ok_iff {na : ℕ} {Obs : Type} (p : C51Params)
    (model : Obs → Fin (na + 1) → Fin p.numAtoms → ℚ) :
    (∃ s, mkC51 p model = Except.ok s) ↔
      1 < p.numAtoms ∧ p.vMin < p.vMax := by
  unfold mkC51
  by_cases h1 : 1 < p.numAtoms
  · by_cases h2 : p.vMin < p.vMax
    · simp [h1, h2]
    · simp [h1, h2]
  · simp [h1]

/-- C5: for every valid configuration (`num_atoms > 1`, `v_min < v_max`)
the constructed support is a fixed grid of exactly `num_atoms` values
spanning `[v_min, v_max]`: `support[0] = v_min`,
`support[num_atoms-1] = v_max`, and consecutive atoms differ by
`delta_z = (v_max - v_min) / (num_atoms - 1)`. -/
theorem mkC51_support_grid {na : ℕ} {Obs : Type} (p : C51Params)
    (h1 : 1 < p.numAtoms) (h2 : p.vMin < p.vMax)
    (model : Obs → Fin (na + 1) → Fin p.numAtoms → ℚ) :
    ∃ s, mkC51 p model = Except.ok s ∧
      s.support ⟨0, by omega⟩ = p.vMin ∧
      s.support ⟨p.numAtoms - 1, by omega⟩ = p.vMax ∧
      s.deltaZ = (p.vMax - p.vMin) / ((p.numAtoms : ℚ) - 1) ∧
      ∀ (j : ℕ) (hj : j + 1 < p.numAtoms),
        s.support ⟨j + 1, hj⟩ - s.support ⟨j, by omega⟩ = s.deltaZ := by
  have hcast : ((p.numAtoms : ℚ) - 1) ≠ 0 := by
    have : (2 : ℚ) ≤ (p.numAtoms : ℚ) := by exact_mod_cast h1
    linarith
  refine ⟨{ dqnBaseInit model p with
      vMin := p.vMin
      vMax := p.vMax
      support := linspace p.vMin p.vMax p.numAtoms
      deltaZ := deltaZ p.vMin p.vMax p.numAtoms }, ?_, ?_, ?_, ?_, ?_⟩
  · unfold mkC51
    simp [h1, h2]
  · simp [linspace]
  · show linspace p.vMin p.vMax p.numAtoms ⟨p.numAtoms - 1, by omega⟩ =
      p.vMax
    unfold linspace
    have hv : ((⟨p.numAtoms - 1, by omega⟩ : Fin p.numAtoms) : ℚ) =
        (p.numAtoms : ℚ) - 1 := by
      show ((p.numAtoms - 1 : ℕ) : ℚ) = (p.numAtoms : ℚ) - 1
      have : 1 ≤ p.numAtoms := by omega
      push_cast [Nat.cast_sub this]
      ring
    rw [hv]
    field_simp
  · rfl
  · intro j hj
    show linspace p.vMin p.vMax p.numAtoms ⟨j + 1, hj⟩ -
        linspace p.vMin p.vMax p.numAtoms ⟨j, by omega⟩ =
      deltaZ p.vMin p.vMax p.numAtoms
    unfold linspace deltaZ
    push_cast
    ring

/-- C5 witness: `mkC51_support_grid` applied to `exampleParams`. -/
theorem mkC51_support_grid_witness :
    ∃ s, mkC51
        exampleParams (fun (_ : Unit) (_ : Fin 1) (_ : Fin 3) => (0 : ℚ)) =
          Except.ok s ∧
      s.support ⟨0, by decide⟩ = exampleParams.vMin ∧
      s.support ⟨exampleParams.numAtoms - 1, by decide⟩ =
        exampleParams.vMax ∧
      s.deltaZ = (exampleParams.vMax - exampleParams.vMin) /
        ((exampleParams.numAtoms : ℚ) - 1) ∧
      ∀ (j : ℕ) (hj : j + 1 < exampleParams.numAtoms),
        s.support ⟨j + 1, hj⟩ - s.support ⟨j, by omega⟩ = s.deltaZ :=
  mkC51_support_grid exampleParams
    (by decide) (by norm_num [exampleParams])
    (fun (_ : Unit) (_ : Fin 1) (_ : Fin 3) => (0 : ℚ))

/-- C7: the categorical projection is stateless: `_target_dist` leaves the
policy object unchanged (support, `delta_z`, `v_min`, `v_max`, the models
and every other field are those it received), and its value is the pure
function `targetDist` of the configuration and the batch, whose type fixes
the output shape `[bsz, num_atoms]`. -/
theorem targetDistS_stateless {bsz na natoms : ℕ} {Obs : Type}
    (s : C51State na natoms Obs) (b : LearnBatch bsz na natoms Obs)
    (coins : Fin bsz → Bool) (randq : Fin bsz → Fin (na + 1) → ℚ) :
    (targetDistS s b coins randq).1 = s ∧
      (targetDistS s b coins randq).2 = targetDist s b coins randq :=
  ⟨rfl, rfl⟩

/-- C9: `learn` mutates its input batch and the policy counter: on return
the `"weight"` key popped from the batch has been replaced by the
per-sample detached cross-entropy values (for prioritized replay), and the
internal counter `_cnt` has been incremented by exactly 1. -/
theorem learn_mutates_weight_and_cnt {bsz na natoms : ℕ} {Obs : Type}
    (optStep : (Obs → Fin (na + 1) → Fin natoms → ℚ) →
      Obs → Fin (na + 1) → Fin natoms → ℚ)
    (log : ℚ → ℚ) (s : C51State na natoms Obs)
    (b : LearnBatch bsz na natoms Obs) (coins : Fin bsz → Bool)
    (randq : Fin bsz → Fin (na + 1) → ℚ) :
    (learn optStep log s b coins randq).2.1.weight =
      some (crossEntropyOf log (syncIfDue s) b coins randq) ∧
    (learn optStep log s b coins randq).1.cnt = s.cnt + 1 := by
  by_cases h : s.useTarget = true ∧ s.cnt % s.freq = 0 <;>
    simp [learn, syncIfDue, h]

theorem selectAct_none {na : ℕ} (v : Fin (na + 1) → ℚ) (a : Fin (na + 1)) :
    v a ≤ v (selectAct none v) :=
  argmaxFin_le v a

/-- Masked argmax never lands on a masked action when some action is
valid: masked entries are `-inf = ⊥`, strictly below every finite value,
so the first index attaining the maximum is unmasked. -/
theorem selectAct_some_mem_mask {na : ℕ} (mask : Fin (na + 1) → Bool)
    (v : Fin (na + 1) → ℚ) (a₀ : Fin (na + 1)) (h : mask a₀ = true) :
    mask (selectAct (some mask) v) = true := by
  by_contra hne
  have hle := argmaxFin_le
    (fun a => if mask a then ((v a : ℚ) : WithBot ℚ) else ⊥) a₀
  have hbot : (if mask (argmaxFin
      (fun a => if mask a then ((v a : ℚ) : WithBot ℚ) else ⊥)) then
      ((v (argmaxFin
        (fun a => if mask a then ((v a : ℚ) : WithBot ℚ) else ⊥)) : ℚ) :
          WithBot ℚ) else ⊥) = ⊥ := by
    rw [if_neg]
    intro hmem
    exact hne hmem
  simp only at hle
  rw [hbot] at hle
  rw [if_pos h] at hle
  exact (WithBot.not_coe_le_bot _) hle

/-- C3: for every batch whose observations carry no mask, when
epsilon-exploration is suppressed (`self.updating` is true or `self.eps`
is close to 0), `forward` selects for sample `b` an action maximising the
distribution-weighted expectation `Σ_j dist[b,a,j] * support[j]`. -/
theorem forward_greedy_is_expectation_argmax {bsz na natoms : ℕ}
    {Obs : Type} (s : C51State na natoms Obs) (obs : Fin bsz → Obs)
    (coins : Fin bsz → Bool) (randq : Fin bsz → Fin (na + 1) → ℚ)
    (useOld : Bool)
    (hsupp : s.updating = true ∨ epsCloseToZero s.eps)
    (b : Fin bsz) (a : Fin (na + 1)) :
    ∑ j, (forward s obs none coins randq useOld).logits b a j *
        s.support j ≤
      ∑ j, (forward s obs none coins randq useOld).logits b
        ((forward s obs none coins randq useOld).act b) j * s.support j := by
  have hnex : ¬ exploring s := by
    rcases hsupp with h | h
    · intro hc
      have h1 : s.updating = false := hc.1
      rw [h] at h1
      exact Bool.noConfusion h1
    · intro hc
      exact hc.2 h
  have hlog : (forward s obs none coins randq useOld).logits =
      fun b => (if useOld then s.modelOld else s.model) (obs b) := rfl
  have hact : (forward s obs none coins randq useOld).act b =
      argmaxFin (fun a => ∑ j,
        (if useOld then s.modelOld else s.model) (obs b) a j *
          s.support j) := by
    have h0 : (forward s obs none coins randq useOld).act b =
        if exploring s ∧ coins b = true then
          argmaxFin (randq b)
        else argmaxFin (fun a => ∑ j,
          (if useOld then s.modelOld else s.model) (obs b) a j *
            s.support j) := rfl
    exact h0.trans
      (if_neg (fun hc : exploring s ∧ coins b = true => hnex hc.1))
  rw [hlog, hact]
  exact argmaxFin_le
    (fun a => ∑ j,
      (if useOld then s.modelOld else s.model) (obs b) a j * s.support j) a

/-- C3 witness: a two-action, two-atom policy with `updating = true`; the
action returned by `forward` dominates action 0 in expected value. -/
theorem forward_greedy_is_expectation_argmax_witness :
    (exampleState.updating = true ∨ epsCloseToZero exampleState.eps) ∧
    ∑ j, (forward exampleState (fun _ : Fin 1 => ()) none (fun _ => false)
        (fun _ _ => 0) false).logits 0 0 j * exampleState.support j ≤
      ∑ j, (forward exampleState (fun _ : Fin 1 => ()) none
          (fun _ => false) (fun _ _ => 0) false).logits 0
        ((forward exampleState (fun _ : Fin 1 => ()) none (fun _ => false)
          (fun _ _ => 0) false).act 0) j * exampleState.support j :=
  ⟨Or.inl rfl, forward_greedy_is_expectation_argmax
    exampleState (fun _ : Fin 1 => ()) (fun _ => false) (fun _ _ => 0) false
    (Or.inl rfl) 0 0⟩

/-- C6: for every batch whose observations carry a mask and every sample
with at least one unmasked action, the action returned by `forward` is
never a masked action — in the greedy branch and in the epsilon-random
exploration branch alike. -/
theorem forward_act_respects_mask {bsz na natoms : ℕ} {Obs : Type}
    (s : C51State na natoms Obs) (obs : Fin bsz → Obs)
    (mask : Fin bsz → Fin (na + 1) → Bool) (coins : Fin bsz → Bool)
    (randq : Fin bsz → Fin (na + 1) → ℚ) (useOld : Bool) (b : Fin bsz)
    (h : ∃ a, mask b a = true) :
    mask b ((forward s obs (some mask) coins randq useOld).act b) =
      true := by
  obtain ⟨a₀, ha₀⟩ := h
  have h0 : (forward s obs (some mask) coins randq useOld).act b =
      if exploring s ∧ coins b = true then
        selectAct (some (mask b)) (randq b)
      else selectAct (some (mask b)) (fun a => ∑ j,
        (if useOld then s.modelOld else s.model) (obs b) a j *
          s.support j) := rfl
  rw [h0]
  by_cases hc : exploring s ∧ coins b = true
  · rw [if_pos hc]
    exact selectAct_some_mem_mask (mask b) (randq b) a₀ ha₀
  · rw [if_neg hc]
    exact selectAct_some_mem_mask (mask b) _ a₀ ha₀

/-- C6 witness: with only action 1 unmasked, `forward` returns an
unmasked action. -/
theorem forward_act_respects_mask_witness :
    (∃ a : Fin 2, (fun (_ : Fin 1) (a : Fin 2) => a == 1) 0 a = true) ∧
      (fun (_ : Fin 1) (a : Fin 2) => a == 1) 0
        ((forward exampleState (fun _ : Fin 1 => ())
          (some fun (_ : Fin 1) (a : Fin 2) => a == 1) (fun _ => false)
          (fun _ _ => 0) false).act 0) = true :=
  ⟨⟨1, by decide⟩, forward_act_respects_mask exampleState (fun _ => ())
    (fun _ a => a == 1) (fun _ => false) (fun _ _ => 0) false 0
    ⟨1, by decide⟩⟩

/-- Partition of unity by hat functions on an integer grid: for
`0 ≤ u ≤ m + 1`, the hats `max (1 - |u - j|) 0`, `j = 0, …, m + 1`, sum
to 1. -/
theorem hat_sum (m : ℕ) : ∀ u : ℚ, 0 ≤ u → u ≤ (m : ℚ) + 1 →
    ∑ j in Finset.range (m + 2), max (1 - |u - (j : ℚ)|) 0 = 1 := by
  induction m with
  | zero =>
    intro u hu0 hu1
    push_cast at hu1
    rw [Finset.sum_range_succ, Finset.sum_range_succ, Finset.sum_range_zero]
    push_cast
    have e0 : |u - (0 : ℚ)| = u := by rw [sub_zero, abs_of_nonneg hu0]
    have e1 : |u - (1 : ℚ)| = 1 - u := by
      rw [abs_of_nonpos (by linarith), neg_sub]
    rw [e0, e1, max_eq_left (by linarith), max_eq_left (by linarith)]
    ring
  | succ k ih =>
    intro u hu0 hu1
    push_cast at hu1
    by_cases hc : u ≤ (k : ℚ) + 1
    · rw [Finset.sum_range_succ]
      have habs : |u - ((k + 2 : ℕ) : ℚ)| = ((k + 2 : ℕ) : ℚ) - u := by
        rw [abs_of_nonpos (by push_cast; linarith), neg_sub]
      rw [habs, max_eq_right (by push_cast; linarith), add_zero]
      exact ih u hu0 hc
    · push_neg at hc
      rw [Finset.sum_range_succ, Finset.sum_range_succ]
      have hzero : ∑ j in Finset.range (k + 1),
          max (1 - |u - (j : ℚ)|) 0 = 0 := by
        apply Finset.sum_eq_zero
        intro j hj
        have hjk : (j : ℚ) ≤ (k : ℚ) := by
          have hmem := Finset.mem_range.mp hj
          have hle : j ≤ k := by omega
          exact_mod_cast hle
        have habs : |u - (j : ℚ)| = u - (j : ℚ) :=
          abs_of_nonneg (by linarith)
        rw [habs, max_eq_right (by linarith)]
      have e1 : |u - ((k + 1 : ℕ) : ℚ)| = u - ((k : ℚ) + 1) := by
        push_cast
        exact abs_of_nonneg (by linarith)
      have e2 : |u - ((k + 2 : ℕ) : ℚ)| = ((k : ℚ) + 2) - u := by
        push_cast
        rw [abs_of_nonpos (by linarith), neg_sub]
      rw [hzero, zero_add, e1, e2, max_eq_left (by linarith),
        max_eq_left (by linarith)]
      ring

theorem clamp01_of_le_one {x : ℚ} (hx : x ≤ 1) : clamp x 0 1 = max x 0 :=
  min_eq_left (max_le hx zero_le_one)

theorem clamp01_nonneg (x : ℚ) : 0 ≤ clamp x 0 1 :=
  le_min (le_max_right x 0) zero_le_one

theorem clamp_le_right {x lo hi : ℚ} : clamp x lo hi ≤ hi :=
  min_le_right _ _

theorem clamp_le_left {x lo hi : ℚ} (h : lo ≤ hi) : lo ≤ clamp x lo hi :=
  le_min (le_max_right x lo) h

/-- One projection coefficient, rescaled to a unit-spaced hat: for
`Δ > 0`, `clamp(1 - |t - (a + x·Δ)| / Δ, 0, 1) = max(1 - |(t-a)/Δ - x|, 0)`. -/
theorem coeff_eq_hat (a : ℚ) {d : ℚ} (hd : 0 < d) (t x : ℚ) :
    clamp (1 - |t - (a + x * d)| / d) 0 1 =
      max (1 - |(t - a) / d - x|) 0 := by
  have hle1 : 1 - |t - (a + x * d)| / d ≤ 1 := by
    have h := div_nonneg (abs_nonneg (t - (a + x * d))) hd.le
    linarith
  rw [clamp01_of_le_one hle1]
  have hx : (t - a) / d - x = (t - (a + x * d)) / d := by
    field_simp
    ring
  rw [hx, abs_div, abs_of_pos hd]

/-- For `v_min < v_max` and `t ∈ [v_min, v_max]`, the C51 projection
coefficients over the `linspace` grid sum to exactly 1. -/
theorem projCoeff_sum {m : ℕ} {vMin vMax t : ℚ} (hlt : vMin < vMax)
    (h1 : vMin ≤ t) (h2 : t ≤ vMax) :
    ∑ j : Fin (m + 2),
      clamp (1 - |t - linspace vMin vMax (m + 2) j|
        / deltaZ vMin vMax (m + 2)) 0 1 = 1 := by
  have hden : (0 : ℚ) < ((m + 2 : ℕ) : ℚ) - 1 := by push_cast; linarith
  have hd : 0 < deltaZ vMin vMax (m + 2) :=
    div_pos (by linarith) hden
  have hu0 : 0 ≤ (t - vMin) / deltaZ vMin vMax (m + 2) :=
    div_nonneg (by linarith) hd.le
  have hdeq : deltaZ vMin vMax (m + 2) = (vMax - vMin) / ((m : ℚ) + 1) := by
    unfold deltaZ
    congr 1
    push_cast
    ring
  have hu1 : (t - vMin) / deltaZ vMin vMax (m + 2) ≤ (m : ℚ) + 1 := by
    rw [div_le_iff₀ hd, hdeq]
    have hm1 : (0 : ℚ) < (m : ℚ) + 1 := by positivity
    rw [mul_div_assoc']
    rw [mul_comm, mul_div_assoc, div_self (ne_of_gt hm1), mul_one]
    linarith
  have hrw : ∀ j : Fin (m + 2),
      clamp (1 - |t - linspace vMin vMax (m + 2) j|
        / deltaZ vMin vMax (m + 2)) 0 1 =
      max (1 - |(t - vMin) / deltaZ vMin vMax (m + 2) - ((j : ℕ) : ℚ)|)
        0 := fun j => coeff_eq_hat vMin hd t ((j : ℕ) : ℚ)
  rw [Finset.sum_congr rfl (fun j _ => hrw j)]
  rw [Fin.sum_univ_eq_sum_range
    (fun j => max (1 - |(t - vMin) / deltaZ vMin vMax (m + 2) - (j : ℚ)|)
      0) (m + 2)]
  exact hat_sum m _ hu0 hu1

/-- C8: the projection preserves probability mass: if the selected
next-state distribution row of sample `bi` has nonnegative entries summing
to 1, then the corresponding row of the tensor returned by `_target_dist`
also has nonnegative entries summing to 1, because every clamped target
value lies in `[v_min, v_max]` and there the projection coefficients sum
over the atom grid to exactly 1.  The hypotheses on `support` and
`delta_z` are exactly what `__init__` establishes. -/
theorem targetDist_row_is_distribution {bsz na m : ℕ} {Obs : Type}
    (s : C51State na (m + 2) Obs) (b : LearnBatch bsz na (m + 2) Obs)
    (coins : Fin bsz → Bool) (randq : Fin bsz → Fin (na + 1) → ℚ)
    (hlt : s.vMin < s.vMax)
    (hsupp : s.support = linspace s.vMin s.vMax (m + 2))
    (hdz : s.deltaZ = deltaZ s.vMin s.vMax (m + 2))
    (bi : Fin bsz)
    (hnn : ∀ i, 0 ≤ nextDistSel s b coins randq bi i)
    (hsum : ∑ i, nextDistSel s b coins randq bi i = 1) :
    (∀ j, 0 ≤ targetDist s b coins randq bi j) ∧
      ∑ j, targetDist s b coins randq bi j = 1 := by
  have hre : ∀ j, targetDist s b coins randq bi j =
      ∑ i, clamp (1 - |clamp (b.returns bi i) s.vMin s.vMax -
          linspace s.vMin s.vMax (m + 2) j| /
        deltaZ s.vMin s.vMax (m + 2)) 0 1 *
        nextDistSel s b coins randq bi i := by
    intro j
    rw [targetDist_eq_sum_nextDistSel, hsupp, hdz]
  constructor
  · intro j
    rw [hre j]
    apply Finset.sum_nonneg
    intro i _
    exact mul_nonneg (clamp01_nonneg _) (hnn i)
  · rw [Finset.sum_congr rfl (fun j _ => hre j), Finset.sum_comm]
    have hinner : ∀ i : Fin (m + 2),
        ∑ j : Fin (m + 2),
          clamp (1 - |clamp (b.returns bi i) s.vMin s.vMax -
              linspace s.vMin s.vMax (m + 2) j| /
            deltaZ s.vMin s.vMax (m + 2)) 0 1 *
          nextDistSel s b coins randq bi i =
        nextDistSel s b coins randq bi i := by
      intro i
      rw [← Finset.sum_mul,
        projCoeff_sum hlt (clamp_le_left hlt.le) clamp_le_right, one_mul]
    rw [Finset.sum_congr rfl (fun i _ => hinner i)]
    exact hsum

/-- C8 witness: the uniform single-action policy on two atoms with zero
returns; the projected row is a probability distribution. -/
theorem targetDist_row_is_distribution_witness :
    (0 ≤ targetDist exampleLearnState exampleLearnBatch (fun _ => false)
      (fun _ _ => 0) 0 0) ∧
    (0 ≤ targetDist exampleLearnState exampleLearnBatch (fun _ => false)
      (fun _ _ => 0) 0 1) ∧
    ∑ j, targetDist exampleLearnState exampleLearnBatch (fun _ => false)
      (fun _ _ => 0) 0 j = 1 := by
  have h := targetDist_row_is_distribution exampleLearnState
    exampleLearnBatch (fun _ => false) (fun _ _ => 0)
    (by norm_num [exampleLearnState]) rfl rfl 0
    (by
      intro i
      norm_num [nextDistSel, forward, exampleLearnState, exampleLearnBatch])
    (by
      norm_num [nextDistSel, forward, exampleLearnState, exampleLearnBatch,
        Fin.sum_univ_two])
  exact ⟨h.1 0, h.1 1, h.2⟩

/-- C10: the projection acts as the identity on atoms of the grid: if a
clamped target value `t` equals the support atom `support[k]` exactly,
then the projection coefficient `clamp(1 - |t - support[j]| / delta_z,
0, 1)` is 1 at `j = k` and 0 at every `j ≠ k`, so that atom's mass is
assigned entirely to atom `k`. -/
theorem projCoeff_identity_on_atoms {na m : ℕ} {Obs : Type}
    (s : C51State na (m + 2) Obs) (hlt : s.vMin < s.vMax)
    (hsupp : s.support = linspace s.vMin s.vMax (m + 2))
    (hdz : s.deltaZ = deltaZ s.vMin s.vMax (m + 2))
    (t : ℚ) (k : Fin (m + 2)) (ht : t = s.support k) (j : Fin (m + 2)) :
    clamp (1 - |t - s.support j| / s.deltaZ) 0 1 =
      if j = k then 1 else 0 := by
  subst ht
  rw [hsupp, hdz]
  have hden : (0 : ℚ) < ((m + 2 : ℕ) : ℚ) - 1 := by push_cast; linarith
  have hd : 0 < deltaZ s.vMin s.vMax (m + 2) :=
    div_pos (by linarith) hden
  by_cases hjk : j = k
  · subst hjk
    rw [if_pos rfl, sub_self, abs_zero, zero_div, sub_zero]
    simp [clamp]
  · rw [if_neg hjk]
    have hdiff : linspace s.vMin s.vMax (m + 2) k -
        linspace s.vMin s.vMax (m + 2) j =
        (((k : ℕ) : ℚ) - ((j : ℕ) : ℚ)) * deltaZ s.vMin s.vMax (m + 2) := by
      unfold linspace deltaZ
      ring
    have habs : |linspace s.vMin s.vMax (m + 2) k -
        linspace s.vMin s.vMax (m + 2) j| =
        |((k : ℕ) : ℚ) - ((j : ℕ) : ℚ)| * deltaZ s.vMin s.vMax (m + 2) := by
      rw [hdiff, abs_mul, abs_of_pos hd]
    have hge1 : (1 : ℚ) ≤ |((k : ℕ) : ℚ) - ((j : ℕ) : ℚ)| := by
      have hne : ((k : ℕ) : ℤ) - ((j : ℕ) : ℤ) ≠ 0 := by
        have : (k : ℕ) ≠ (j : ℕ) := fun h => hjk (Fin.ext h.symm)
        omega
      have h1 := Int.one_le_abs hne
      have : ((1 : ℤ) : ℚ) ≤ ((|((k : ℕ) : ℤ) - ((j : ℕ) : ℤ)| : ℤ) : ℚ) :=
        by exact_mod_cast h1
      push_cast at this
      linarith
    have hx : 1 - |linspace s.vMin s.vMax (m + 2) k -
        linspace s.vMin s.vMax (m + 2) j| /
        deltaZ s.vMin s.vMax (m + 2) ≤ 0 := by
      rw [habs, mul_div_assoc, div_self (ne_of_gt hd), mul_one]
      linarith
    rw [clamp01_of_le_one (by linarith)]
    exact max_eq_right hx

/-- C10 witness: on the two-atom grid, the target value `support[0]` gets
coefficient 0 at atom 1 (and, by the same theorem, 1 at atom 0). -/
theorem projCoeff_identity_on_atoms_witness :
    (exampleLearnState.support 0 = exampleLearnState.support 0) ∧
    clamp (1 - |exampleLearnState.support 0 - exampleLearnState.support 1|
      / exampleLearnState.deltaZ) 0 1 = if (1 : Fin 2) = 0 then 1 else 0 :=
  ⟨rfl, projCoeff_identity_on_atoms exampleLearnState
    (by norm_num [exampleLearnState]) rfl rfl
    (exampleLearnState.support 0) 0 rfl 1⟩

/-- C2 counterexample: with `log` the identity, a one-sample batch whose
`"weight"` key is 2 and uniform distributions, the loss returned by
`learn` differs from the plain mean cross-entropy
`mean_b (-Σ_j target_dist[b,j] * log(curr_dist[b,j]))`: the code weights
each sample by the popped `"weight"` and evaluates `log` at
`curr_dist + 1e-8`. -/
theorem learn_loss_ne_mean_crossentropy :
    (learn (fun f => f) (fun x => x) exampleLearnState exampleLearnBatch
        (fun _ => false) (fun _ _ => 0)).2.2 ≠
      (∑ bi : Fin 1, -(∑ j, targetDist exampleLearnState exampleLearnBatch
          (fun _ => false) (fun _ _ => 0) bi j *
        ((forward exampleLearnState exampleLearnBatch.obs
          exampleLearnBatch.obsMask? (fun _ => false) (fun _ _ => 0)
          false).logits bi (exampleLearnBatch.act bi) j))) /
        ((1 : ℕ) : ℚ) := by
  have htd : ∀ (bi : Fin 1) (j : Fin 2), targetDist exampleLearnState
      exampleLearnBatch (fun _ => false) (fun _ _ => 0) bi j = 1 / 2 := by
    intro bi j
    rw [targetDist_eq_sum_nextDistSel]
    fin_cases bi
    fin_cases j <;>
      norm_num [nextDistSel, forward, exampleLearnState, exampleLearnBatch,
        clamp, linspace, deltaZ, Fin.sum_univ_two, max_def, min_def, abs]
  have hsync : syncIfDue exampleLearnState = exampleLearnState := rfl
  have hcurr : ∀ (bi : Fin 1) (j : Fin 2),
      (forward exampleLearnState exampleLearnBatch.obs
        exampleLearnBatch.obsMask? (fun _ => false) (fun _ _ => 0)
        false).logits bi (exampleLearnBatch.act bi) j = 1 / 2 :=
    fun _ _ => rfl
  have hw : exampleLearnBatch.weight = some (fun _ => 2) := rfl
  have hL : (learn (fun f => f) (fun x => x) exampleLearnState
      exampleLearnBatch (fun _ => false) (fun _ _ => 0)).2.2 =
      (∑ bi : Fin 1, crossEntropyOf (fun x => x)
          (syncIfDue exampleLearnState) exampleLearnBatch
          (fun _ => false) (fun _ _ => 0) bi *
        (match exampleLearnBatch.weight with
          | some f => f bi
          | none => 1)) / ((1 : ℕ) : ℚ) := rfl
  rw [hL, hsync]
  norm_num [crossEntropyOf, htd, hcurr, hw, Fin.sum_univ_two,
    Fin.sum_univ_one]

/-- C2 (amended): `learn` returns `{"loss": l}` where `l` is the mean over
samples of the popped `"weight"` (1.0 when the key is absent) times the
per-sample cross-entropy
`-Σ_j target_dist[b,j] * log(curr_dist[b,j] + 1e-8)` between the current
predicted distribution for the taken action and the projected target
distribution. -/
theorem learn_loss_is_weighted_mean_crossentropy {bsz na natoms : ℕ}
    {Obs : Type}
    (optStep : (Obs → Fin (na + 1) → Fin natoms → ℚ) →
      Obs → Fin (na + 1) → Fin natoms → ℚ)
    (log : ℚ → ℚ) (s : C51State na natoms Obs)
    (b : LearnBatch bsz na natoms Obs) (coins : Fin bsz → Bool)
    (randq : Fin bsz → Fin (na + 1) → ℚ) :
    (learn optStep log s b coins randq).2.2 =
      (∑ bi, -(∑ j, targetDist (syncIfDue s) b coins randq bi j *
          log ((forward (syncIfDue s) b.obs b.obsMask? coins randq
            false).logits bi (b.act bi) j + 1 / 100000000)) *
        (match b.weight with
          | some f => f bi
          | none => 1)) / (bsz : ℚ) := rfl

end C51
